import Mathlib

/-!
Shallow embedding of the drone deconfliction core
(`conflict_checker/spatial.py`, `conflict_checker/temporal.py`,
`conflict_checker/utils.py`).

Modelling conventions:
* Python floats are modelled by exact rationals `ℚ`; the float literals
  `0.3` and `0.6` are modelled by `3/10` and `6/10`.
* `Waypoint.distance_to` computes a square root, which is irrational in
  general.  We store and compare squared distances (`dist2`) instead, and
  embed every comparison `sqrt s < d` of the source as the boolean
  `sqrtLt s d` (`0 < d ∧ s < d^2`), which is proved equivalent to the
  real-number comparison `Real.sqrt s < d` for `0 ≤ s`
  (lemma `sqrtLt_iff_sqrt`).  Accordingly the `distance` field of a
  `Conflict` holds the squared distance.
* Fallible operations (`DroneTrajectory.__init__` validation, the
  severity lookup of `filter_conflicts_by_severity`) return `Except`;
  `interpolate_position` returns `Option` as in the source (None).
* Python dicts keyed by strings are modelled as association lists; the
  insertion-order/overwrite behaviour of the positions dict in
  `detect_spatial_conflicts` is reproduced by `insertPos`.
-/

/-- A single waypoint with position and time (`spatial.py`, `Waypoint`). -/
@[ext]
structure Waypoint where
  x : ℚ
  y : ℚ
  z : ℚ
  timestamp : ℚ
deriving DecidableEq, Repr

/-- Squared 3D Euclidean distance.  The source's `distance_to` returns the
square root of this quantity. -/
def Waypoint.dist2 (a b : Waypoint) : ℚ :=
  (a.x - b.x) ^ 2 + (a.y - b.y) ^ 2 + (a.z - b.z) ^ 2

/-- Exact-arithmetic rendering of the comparison `sqrt s < d` performed by
the source on distances: over the reals, for `0 ≤ s`, `sqrt s < d` holds
iff `0 < d` and `s < d^2`. -/
def sqrtLt (s d : ℚ) : Bool :=
  decide (0 < d) && decide (s < d ^ 2)

/-- The real-number comparison the source performs on a squared distance
`s`; used in specification statements. -/
def SqrtLt (s d : ℚ) : Prop :=
  Real.sqrt (s : ℝ) < (d : ℝ)

/-- Structured key/value representation values: numbers, strings and
nested key/value maps (the image of Python `dict` under `to_dict`). -/
inductive DVal where
  | num : ℚ → DVal
  | str : String → DVal
  | dict : List (String × DVal) → DVal

/-- `Waypoint.to_dict` from `spatial.py`. -/
def Waypoint.to_dict (w : Waypoint) : List (String × DVal) :=
  [("x", DVal.num w.x), ("y", DVal.num w.y), ("z", DVal.num w.z),
   ("timestamp", DVal.num w.timestamp)]

/-- Look up a key expecting a numeric value. -/
def getNum (d : List (String × DVal)) (k : String) : Option ℚ :=
  match d.lookup k with
  | some (DVal.num q) => some q
  | _ => none

/-- Look up a key expecting a string value. -/
def getStr (d : List (String × DVal)) (k : String) : Option String :=
  match d.lookup k with
  | some (DVal.str s) => some s
  | _ => none

/-- Look up a key expecting a nested map value. -/
def getDict (d : List (String × DVal)) (k : String) : Option (List (String × DVal)) :=
  match d.lookup k with
  | some (DVal.dict m) => some m
  | _ => none

/-- `Waypoint.from_dict` from `spatial.py` (a missing key raises in
Python, modelled as `none`). -/
def Waypoint.from_dict (d : List (String × DVal)) : Option Waypoint :=
  match getNum d "x", getNum d "y", getNum d "z", getNum d "timestamp" with
  | some x, some y, some z, some t => some ⟨x, y, z, t⟩
  | _, _, _, _ => none

/-- A detected conflict between two drones (`temporal.py`, `Conflict`).
The `dist2` field holds the squared separation distance (the source
stores its square root, see the file header). -/
structure Conflict where
  drone1_id : String
  drone2_id : String
  timestamp : ℚ
  dist2 : ℚ
  position1 : Waypoint
  position2 : Waypoint
  severity : String
  conflict_type : String
deriving DecidableEq, Repr

/-- `Conflict.to_dict` from `temporal.py`. -/
def Conflict.to_dict (c : Conflict) : List (String × DVal) :=
  [("drone1_id", DVal.str c.drone1_id), ("drone2_id", DVal.str c.drone2_id),
   ("timestamp", DVal.num c.timestamp), ("distance", DVal.num c.dist2),
   ("position1", DVal.dict c.position1.to_dict),
   ("position2", DVal.dict c.position2.to_dict),
   ("severity", DVal.str c.severity), ("conflict_type", DVal.str c.conflict_type)]

/-- Modelled from the spec: the source defines `Conflict.to_dict` but no
matching reconstruction function anywhere in the repository; the spec
requires a reconstruction with `from_representation(to_representation(x)) == x`,
so this inverse is written from the spec's words against the source's
`to_dict` field layout. -/
def Conflict.from_dict (d : List (String × DVal)) : Option Conflict :=
  match getStr d "drone1_id", getStr d "drone2_id", getNum d "timestamp",
        getNum d "distance", getDict d "position1", getDict d "position2",
        getStr d "severity", getStr d "conflict_type" with
  | some i1, some i2, some t, some s2, some p1, some p2, some sev, some ty =>
    match Waypoint.from_dict p1, Waypoint.from_dict p2 with
    | some w1, some w2 => some ⟨i1, i2, t, s2, w1, w2, sev, ty⟩
    | _, _ => none
  | _, _, _, _, _, _, _, _ => none

/-- A drone's flight path (`spatial.py`, `DroneTrajectory`): identifier
plus waypoints, stored sorted by timestamp. -/
structure DroneTrajectory where
  drone_id : String
  waypoints : List Waypoint
deriving DecidableEq, Repr

/-- The sort performed by `DroneTrajectory.__init__`
(`sorted(waypoints, key=lambda w: w.timestamp)`, a stable sort). -/
def sortWaypoints (ws : List Waypoint) : List Waypoint :=
  ws.mergeSort (fun a b => a.timestamp ≤ b.timestamp)

/-- `DroneTrajectory.__init__` together with `_validate_waypoints`: sort,
then fail on fewer than 2 waypoints or duplicate timestamps. -/
def DroneTrajectory.mk? (drone_id : String) (ws : List Waypoint) :
    Except String DroneTrajectory :=
  let sorted := sortWaypoints ws
  if sorted.length < 2 then
    Except.error "must have at least 2 waypoints"
  else if ¬ (sorted.map Waypoint.timestamp).Nodup then
    Except.error "has duplicate timestamps"
  else
    Except.ok ⟨drone_id, sorted⟩

/-- Computable check that consecutive waypoints have strictly increasing
timestamps. -/
def chainLtB : List Waypoint → Bool
  | w1 :: w2 :: rest => decide (w1.timestamp < w2.timestamp) && chainLtB (w2 :: rest)
  | _ => true

/-- Trajectory invariant established by construction: at least two
waypoints, strictly increasing timestamps (see `chainLtB_iff`). -/
def DroneTrajectory.Valid (tr : DroneTrajectory) : Prop :=
  2 ≤ tr.waypoints.length ∧ chainLtB tr.waypoints = true

instance (tr : DroneTrajectory) : Decidable tr.Valid :=
  inferInstanceAs (Decidable (2 ≤ tr.waypoints.length ∧
    chainLtB tr.waypoints = true))

/-- The scan of `interpolate_position` over consecutive waypoint pairs:
find the first bracketing pair and linearly interpolate (including the
degenerate equal-timestamp guard of the source). -/
def findBracket (t : ℚ) : List Waypoint → Option Waypoint
  | w1 :: w2 :: rest =>
    if w1.timestamp ≤ t ∧ t ≤ w2.timestamp then
      if w2.timestamp = w1.timestamp then
        some w1
      else
        let f := (t - w1.timestamp) / (w2.timestamp - w1.timestamp)
        some ⟨w1.x + f * (w2.x - w1.x), w1.y + f * (w2.y - w1.y),
              w1.z + f * (w2.z - w1.z), t⟩
    else
      findBracket t (w2 :: rest)
  | _ => none

/-- `DroneTrajectory.interpolate_position`: `none` outside the time
bounds, otherwise the scan.  (On an empty waypoint list the Python code
would raise; that state is unreachable for validated trajectories.) -/
def DroneTrajectory.interpolate_position (tr : DroneTrajectory) (t : ℚ) :
    Option Waypoint :=
  match tr.waypoints.head?, tr.waypoints.getLast? with
  | some w0, some wn =>
    if t < w0.timestamp ∨ wn.timestamp < t then none
    else findBracket t tr.waypoints
  | _, _ => none

/-- `DroneTrajectory.get_trajectory_bounds` (first/last timestamp; the
source indexes and would raise on an empty list, modelled by default 0). -/
def DroneTrajectory.get_trajectory_bounds (tr : DroneTrajectory) : ℚ × ℚ :=
  (Option.elim tr.waypoints.head? 0 Waypoint.timestamp,
   Option.elim tr.waypoints.getLast? 0 Waypoint.timestamp)

/-- `numpy.linspace a b num` with endpoint=True, in exact arithmetic:
`num` evenly spaced points from `a` to `b` inclusive. -/
def linspace (a b : ℚ) (num : ℕ) : List ℚ :=
  if num = 0 then []
  else if num = 1 then [a]
  else (List.range num).map fun (i : ℕ) => a + (b - a) * (i : ℚ) / ((num : ℚ) - 1)

/-- `DroneTrajectory.sample_trajectory`: interpolate at `num_points`
evenly spaced timestamps across the bounds, dropping failures. -/
def DroneTrajectory.sample_trajectory (tr : DroneTrajectory)
    (num_points : ℕ) : List Waypoint :=
  let b := tr.get_trajectory_bounds
  (linspace b.1 b.2 num_points).filterMap tr.interpolate_position

/-- Severity classification of `detect_spatial_conflicts` on a squared
distance that already satisfies `sqrtLt s2 d`. -/
def spatialSeverity (s2 d : ℚ) : String :=
  if sqrtLt s2 (3 / 10 * d) then "high"
  else if sqrtLt s2 (6 / 10 * d) then "medium"
  else "low"

/-- Python dict insertion on an association list: overwrite in place if
the key is present, else append. -/
def insertPos : List (String × Waypoint) → String → Waypoint →
    List (String × Waypoint)
  | [], k, v => [(k, v)]
  | (k', v') :: rest, k, v =>
    if k' = k then (k', v) :: rest else (k', v') :: insertPos rest k v

/-- The `positions` dict of `detect_spatial_conflicts` at one timestamp:
for each trajectory in order, interpolate and insert on success. -/
def positionsAt (trajs : List DroneTrajectory) (t : ℚ) :
    List (String × Waypoint) :=
  trajs.foldl
    (fun acc tr =>
      match tr.interpolate_position t with
      | some p => insertPos acc tr.drone_id p
      | none => acc)
    []

/-- One spatial `Conflict` record as built by `detect_spatial_conflicts`. -/
def mkSpatialConflict (d : ℚ) (t : ℚ) (id1 id2 : String) (p1 p2 : Waypoint) :
    Conflict :=
  ⟨id1, id2, t, p1.dist2 p2, p1, p2, spatialSeverity (p1.dist2 p2) d, "spatial"⟩

/-- The inner double loop of `detect_spatial_conflicts` over index pairs
`i < j` of the positions list. -/
def conflictsAt (d t : ℚ) : List (String × Waypoint) → List Conflict
  | [] => []
  | (id1, p1) :: rest =>
    (rest.filterMap fun q =>
      if sqrtLt (p1.dist2 q.2) d then some (mkSpatialConflict d t id1 q.1 p1 q.2)
      else none)
      ++ conflictsAt d t rest

/-- Maximum of a list (Python `max`, raising on empty — defaulted to 0
behind the length guard of the caller). -/
def listMax : List ℚ → ℚ
  | [] => 0
  | x :: xs => xs.foldl max x

/-- Minimum of a list (Python `min`, raising on empty — defaulted to 0
behind the length guard of the caller). -/
def listMin : List ℚ → ℚ
  | [] => 0
  | x :: xs => xs.foldl min x

/-- `global_start` of `detect_spatial_conflicts`: latest start time. -/
def globalStart (trajs : List DroneTrajectory) : ℚ :=
  listMax (trajs.map fun tr => tr.get_trajectory_bounds.1)

/-- `global_end` of `detect_spatial_conflicts`: earliest end time. -/
def globalEnd (trajs : List DroneTrajectory) : ℚ :=
  listMin (trajs.map fun tr => tr.get_trajectory_bounds.2)

/-- `num_samples = int((global_end - global_start) / time_resolution) + 1`;
`int` truncates, which is `floor` for the positive values arising when
`global_start < global_end` and `time_resolution > 0`. -/
def numSamples (trajs : List DroneTrajectory) (time_resolution : ℚ) : ℕ :=
  (⌊(globalEnd trajs - globalStart trajs) / time_resolution⌋).toNat + 1

/-- The sampled timestamps of `detect_spatial_conflicts`. -/
def timeSamples (trajs : List DroneTrajectory) (time_resolution : ℚ) : List ℚ :=
  linspace (globalStart trajs) (globalEnd trajs) (numSamples trajs time_resolution)

/-- `detect_spatial_conflicts` from `spatial.py`. -/
def detect_spatial_conflicts (trajs : List DroneTrajectory)
    (min_separation time_resolution : ℚ) : List Conflict :=
  if trajs.length < 2 then []
  else if globalEnd trajs ≤ globalStart trajs then []
  else
    (timeSamples trajs time_resolution).flatMap fun t =>
      conflictsAt min_separation t (positionsAt trajs t)

/-- The body of the temporal detector for one ordered trajectory pair:
cross-compare 50 samples of each. -/
def temporalPairConflicts (time_window min_separation : ℚ)
    (tr1 tr2 : DroneTrajectory) : List Conflict :=
  (tr1.sample_trajectory 50).flatMap fun wp1 =>
    (tr2.sample_trajectory 50).filterMap fun wp2 =>
      if sqrtLt (wp1.dist2 wp2) min_separation then
        if 0 < |wp1.timestamp - wp2.timestamp| ∧
            |wp1.timestamp - wp2.timestamp| ≤ time_window then
          some ⟨tr1.drone_id, tr2.drone_id, min wp1.timestamp wp2.timestamp,
                wp1.dist2 wp2, wp1, wp2,
                if |wp1.timestamp - wp2.timestamp| < 3 / 10 * time_window then
                  "high"
                else "medium",
                "temporal"⟩
        else none
      else none

/-- The `i < j` double loop over trajectories shared by the detectors. -/
def pairsFold (f : DroneTrajectory → DroneTrajectory → List Conflict) :
    List DroneTrajectory → List Conflict
  | [] => []
  | tr :: rest => rest.flatMap (f tr) ++ pairsFold f rest

/-- `detect_temporal_conflicts` from `temporal.py`. -/
def detect_temporal_conflicts (trajs : List DroneTrajectory)
    (time_window min_separation : ℚ) : List Conflict :=
  pairsFold (temporalPairConflicts time_window min_separation) trajs

/-- Round half to even at the integers (Python `round`'s tie rule, in
exact decimal arithmetic). -/
def roundHalfEven (m : ℚ) : ℤ :=
  let f := ⌊m⌋
  let r := m - f
  if r < 1 / 2 then f
  else if 1 / 2 < r then f + 1
  else if f % 2 = 0 then f else f + 1

/-- Python `round(t, 1)`: round to one decimal place. -/
def round1 (t : ℚ) : ℚ :=
  (roundHalfEven (10 * t) : ℚ) / 10

/-- The deduplication key of `merge_conflicts`: the sorted drone-ID pair
with the timestamp rounded to one decimal place. -/
def conflictKey (c : Conflict) : (String × String) × ℚ :=
  (if c.drone2_id < c.drone1_id then (c.drone2_id, c.drone1_id)
   else (c.drone1_id, c.drone2_id),
   round1 c.timestamp)

/-- The `seen`-set loop of `merge_conflicts`: keep the first conflict for
each key, drop later ones. -/
def dedupKeyed : List Conflict → List ((String × String) × ℚ) → List Conflict
  | [], _ => []
  | c :: rest, seen =>
    if conflictKey c ∈ seen then dedupKeyed rest seen
    else c :: dedupKeyed rest (conflictKey c :: seen)

/-- `merge_conflicts` from `utils.py`: concatenate, then deduplicate by
key, first occurrence winning. -/
def merge_conflicts (ls : List (List Conflict)) : List Conflict :=
  dedupKeyed ls.flatten []

/-- The `severity_order` lookup of `filter_conflicts_by_severity`
(`none` models a `KeyError`). -/
def severity_order (s : String) : Option ℕ :=
  if s = "low" then some 0
  else if s = "medium" then some 1
  else if s = "high" then some 2
  else none

/-- Rank every conflict's severity left to right, failing at the first
unrecognized one (the comprehension's `severity_order[c.severity]`). -/
def rankConflicts : List Conflict → Except String (List (Conflict × ℕ))
  | [] => Except.ok []
  | c :: rest =>
    match severity_order c.severity with
    | none => Except.error "KeyError: severity"
    | some r => (rankConflicts rest).map (fun l => (c, r) :: l)

/-- `filter_conflicts_by_severity` from `utils.py`. -/
def filter_conflicts_by_severity (conflicts : List Conflict)
    (min_severity : String) : Except String (List Conflict) :=
  match severity_order min_severity with
  | none => Except.error "KeyError: min_severity"
  | some min_level =>
    (rankConflicts conflicts).map fun l =>
      (l.filter fun p => decide (min_level ≤ p.2)).map Prod.fst

/-- The spec's severity ranking: low = 0, medium = 1, high = 2. -/
def sevRank (s : String) : ℕ :=
  if s = "high" then 2 else if s = "medium" then 1 else 0

/-- Concrete data for witnesses: drone A flies straight from the origin. -/
def wA0 : Waypoint := ⟨0, 0, 100, 0⟩

/-- Concrete data for witnesses: drone A's second waypoint. -/
def wA1 : Waypoint := ⟨100, 0, 100, 10⟩

/-- Concrete two-waypoint trajectory for drone A over times 0 to 10. -/
def trA : DroneTrajectory := ⟨"A", [wA0, wA1]⟩

/-- Concrete two-waypoint trajectory for drone B over times 2 to 12,
crossing drone A's path. -/
def trB : DroneTrajectory := ⟨"B", [⟨0, 50, 100, 2⟩, ⟨100, -50, 100, 12⟩]⟩

/-- A concrete low-severity conflict between A and B at time 0. -/
def cLow : Conflict := ⟨"A", "B", 0, 0, wA0, wA0, "low", "spatial"⟩

/-- A concrete high-severity conflict between A and B at time 0, sharing
the deduplication key of `cLow` but differing in content. -/
def cHigh : Conflict := ⟨"A", "B", 0, 0, wA0, wA0, "high", "temporal"⟩

/-- A concrete medium-severity conflict with a distinct key. -/
def cMed : Conflict := ⟨"A", "B", 7, 1, wA0, wA1, "medium", "spatial"⟩

theorem chainLtB_iff (l : List Waypoint) :
    chainLtB l = true ↔ l.Chain' (fun a b => a.timestamp < b.timestamp) := by
  induction l with
  | nil => simp [chainLtB]
  | cons w1 tl ih =>
    cases tl with
    | nil => simp [chainLtB]
    | cons w2 rest =>
      rw [show chainLtB (w1 :: w2 :: rest) =
          (decide (w1.timestamp < w2.timestamp) && chainLtB (w2 :: rest)) from rfl]
      rw [List.chain'_cons, Bool.and_eq_true, decide_eq_true_eq, ih]

theorem dist2_nonneg (a b : Waypoint) : 0 ≤ a.dist2 b := by
  unfold Waypoint.dist2
  positivity

theorem sqrtLt_iff_sqrt (s d : ℚ) : sqrtLt s d = true ↔ SqrtLt s d := by
  unfold sqrtLt SqrtLt
  simp only [Bool.and_eq_true, decide_eq_true_eq]
  constructor
  · rintro ⟨hd, hlt⟩
    have hd' : (0 : ℝ) < (d : ℚ) := by exact_mod_cast hd
    rw [Real.sqrt_lt' hd']
    exact_mod_cast hlt
  · intro h
    have hd : (0 : ℝ) < (d : ℚ) := lt_of_le_of_lt (Real.sqrt_nonneg _) h
    rw [Real.sqrt_lt' hd] at h
    refine ⟨by exact_mod_cast hd, by exact_mod_cast h⟩

/-- C4: round-tripping the structured key/value representation restores
every valid Waypoint and every valid Conflict exactly. -/
theorem to_dict_from_dict_roundtrip (w : Waypoint) (c : Conflict) :
    Waypoint.from_dict (Waypoint.to_dict w) = some w ∧
    Conflict.from_dict (Conflict.to_dict c) = some c := by
  constructor <;> rfl

/-- C7: trajectory construction succeeds exactly when there are at least
two waypoints and no duplicate timestamps, independently of input order
(the right-hand side is permutation-invariant). -/
theorem mk?_ok_iff (id : String) (ws : List Waypoint) :
    (DroneTrajectory.mk? id ws).isOk = true ↔
      2 ≤ ws.length ∧ (ws.map Waypoint.timestamp).Nodup := by
  have hperm : (sortWaypoints ws).Perm ws := List.mergeSort_perm ws _
  have hlen : (sortWaypoints ws).length = ws.length := hperm.length_eq
  have hnd : ((sortWaypoints ws).map Waypoint.timestamp).Nodup ↔
      (ws.map Waypoint.timestamp).Nodup := (hperm.map _).nodup_iff
  unfold DroneTrajectory.mk?
  by_cases h1 : (sortWaypoints ws).length < 2
  · rw [if_pos h1]
    constructor
    · intro h
      cases h
    · intro h
      omega
  · rw [if_neg h1]
    by_cases h2 : ((sortWaypoints ws).map Waypoint.timestamp).Nodup
    · rw [if_neg (by simpa using h2)]
      refine ⟨fun _ => ⟨by omega, hnd.mp h2⟩, fun _ => rfl⟩
    · rw [if_pos (by simpa using h2)]
      constructor
      · intro h
        cases h
      · intro h
        exact absurd (hnd.mpr h.2) h2

/-- C10: with fewer than two trajectories both detectors return the
empty conflict list. -/
theorem detectors_empty_of_lt_two (trajs : List DroneTrajectory)
    (d res tw : ℚ) (h : trajs.length < 2) :
    detect_spatial_conflicts trajs d res = [] ∧
    detect_temporal_conflicts trajs tw d = [] := by
  constructor
  · unfold detect_spatial_conflicts
    simp [h]
  · cases trajs with
    | nil => rfl
    | cons a t =>
      cases t with
      | nil => simp [detect_temporal_conflicts, pairsFold]
      | cons b r =>
        simp at h
        omega

/-- Witness for C10 at the empty trajectory list. -/
theorem detectors_empty_of_lt_two_witness :
    ([] : List DroneTrajectory).length < 2 ∧
    (detect_spatial_conflicts [] 50 1 = [] ∧
      detect_temporal_conflicts [] 10 50 = []) :=
  ⟨by decide, detectors_empty_of_lt_two [] 50 1 10 (by decide)⟩

/-- Witness for C4 at a concrete waypoint and conflict. -/
theorem to_dict_from_dict_roundtrip_witness :
    Waypoint.from_dict (Waypoint.to_dict wA0) = some wA0 ∧
    Conflict.from_dict (Conflict.to_dict cLow) = some cLow :=
  to_dict_from_dict_roundtrip wA0 cLow

/-- Witness for C7 at a concrete unsorted waypoint list. -/
theorem mk?_ok_iff_witness :
    (DroneTrajectory.mk? "A" [wA1, wA0]).isOk = true ↔
      2 ≤ ([wA1, wA0] : List Waypoint).length ∧
        (([wA1, wA0] : List Waypoint).map Waypoint.timestamp).Nodup :=
  mk?_ok_iff "A" [wA1, wA0]

theorem severity_order_eq_sevRank (s : String)
    (h : s = "low" ∨ s = "medium" ∨ s = "high") :
    severity_order s = some (sevRank s) := by
  rcases h with h | h | h <;> subst h <;> rfl

theorem severity_order_eq_none (s : String)
    (h : ¬(s = "low" ∨ s = "medium" ∨ s = "high")) :
    severity_order s = none := by
  push_neg at h
  unfold severity_order
  rw [if_neg h.1, if_neg h.2.1, if_neg h.2.2]

theorem rankConflicts_eq (cs : List Conflict)
    (h : ∀ c ∈ cs, c.severity = "low" ∨ c.severity = "medium" ∨ c.severity = "high") :
    rankConflicts cs = Except.ok (cs.map fun c => (c, sevRank c.severity)) := by
  induction cs with
  | nil => rfl
  | cons c rest ih =>
    have hc := severity_order_eq_sevRank c.severity (h c (by simp))
    have hrest := ih (fun c' hc' => h c' (by simp [hc']))
    simp only [rankConflicts, hc, hrest, Except.map, List.map_cons]

/-- C9: severity filtering keeps exactly the conflicts whose rank
(low = 0, medium = 1, high = 2) is at least that of `min_severity`, and
fails exactly when `min_severity` is not a recognized level. -/
theorem filter_by_severity_spec (cs : List Conflict) (ms : String)
    (h : ∀ c ∈ cs, c.severity = "low" ∨ c.severity = "medium" ∨ c.severity = "high") :
    ((filter_conflicts_by_severity cs ms).isOk = true ↔
      ms = "low" ∨ ms = "medium" ∨ ms = "high") ∧
    ((ms = "low" ∨ ms = "medium" ∨ ms = "high") →
      filter_conflicts_by_severity cs ms =
        Except.ok (cs.filter fun c => decide (sevRank ms ≤ sevRank c.severity))) := by
  have hval : (ms = "low" ∨ ms = "medium" ∨ ms = "high") →
      filter_conflicts_by_severity cs ms =
        Except.ok (cs.filter fun c => decide (sevRank ms ≤ sevRank c.severity)) := by
    intro hms
    unfold filter_conflicts_by_severity
    rw [severity_order_eq_sevRank ms hms, rankConflicts_eq cs h]
    show Except.ok _ = Except.ok _
    congr 1
    simp only [List.filter_map, List.map_map, Function.comp_def]
    simp
  refine ⟨⟨fun hok => ?_, fun hms => by rw [hval hms]; rfl⟩, hval⟩
  by_contra hms
  rw [show filter_conflicts_by_severity cs ms = Except.error "KeyError: min_severity" by
    unfold filter_conflicts_by_severity
    rw [severity_order_eq_none ms hms]] at hok
  cases hok

/-- Witness for C9 at a concrete conflict list and minimum severity. -/
theorem filter_by_severity_spec_witness :
    ((filter_conflicts_by_severity [cLow, cMed, cHigh] "medium").isOk = true ↔
      ("medium" : String) = "low" ∨ ("medium" : String) = "medium" ∨
        ("medium" : String) = "high") ∧
    ((("medium" : String) = "low" ∨ ("medium" : String) = "medium" ∨
        ("medium" : String) = "high") →
      filter_conflicts_by_severity [cLow, cMed, cHigh] "medium" =
        Except.ok (([cLow, cMed, cHigh] : List Conflict).filter
          fun c => decide (sevRank "medium" ≤ sevRank c.severity))) :=
  filter_by_severity_spec [cLow, cMed, cHigh] "medium" (by decide)

theorem dedupKeyed_cons (c : Conflict) (rest : List Conflict)
    (seen : List ((String × String) × ℚ)) :
    dedupKeyed (c :: rest) seen =
      if conflictKey c ∈ seen then dedupKeyed rest seen
      else c :: dedupKeyed rest (conflictKey c :: seen) := rfl

theorem mem_map_conflictKey_dedupKeyed (l : List Conflict)
    (seen : List ((String × String) × ℚ)) (k : (String × String) × ℚ) :
    k ∈ (dedupKeyed l seen).map conflictKey ↔
      k ∈ l.map conflictKey ∧ k ∉ seen := by
  induction l generalizing seen with
  | nil => simp [dedupKeyed]
  | cons c rest ih =>
    by_cases hc : conflictKey c ∈ seen
    · rw [dedupKeyed_cons, if_pos hc, ih]
      simp only [List.map_cons, List.mem_cons]
      constructor
      · exact fun ⟨h1, h2⟩ => ⟨Or.inr h1, h2⟩
      · rintro ⟨h1 | h1, h2⟩
        · exact absurd (h1 ▸ hc) h2
        · exact ⟨h1, h2⟩
    · rw [dedupKeyed_cons, if_neg hc]
      simp only [List.map_cons, List.mem_cons, ih, List.mem_cons]
      by_cases hk : k = conflictKey c
      · subst hk
        simp [hc]
      · simp [hk]

theorem nodup_map_conflictKey_dedupKeyed (l : List Conflict)
    (seen : List ((String × String) × ℚ)) :
    ((dedupKeyed l seen).map conflictKey).Nodup ∧
      ∀ k ∈ (dedupKeyed l seen).map conflictKey, k ∉ seen := by
  induction l generalizing seen with
  | nil => simp [dedupKeyed]
  | cons c rest ih =>
    by_cases hc : conflictKey c ∈ seen
    · rw [dedupKeyed_cons, if_pos hc]
      exact ih seen
    · rw [dedupKeyed_cons, if_neg hc]
      obtain ⟨ihnd, ihseen⟩ := ih (conflictKey c :: seen)
      simp only [List.map_cons, List.nodup_cons]
      refine ⟨⟨fun hmem => ?_, ihnd⟩, ?_⟩
      · exact ihseen _ hmem (by simp)
      · intro k hk
        rcases List.mem_cons.mp hk with hk | hk
        · exact hk ▸ hc
        · exact fun hs => ihseen k hk (List.mem_cons_of_mem _ hs)

theorem dedupKeyed_noop (l : List Conflict)
    (seen : List ((String × String) × ℚ))
    (h1 : (l.map conflictKey).Nodup)
    (h2 : ∀ k ∈ l.map conflictKey, k ∉ seen) :
    dedupKeyed l seen = l := by
  induction l generalizing seen with
  | nil => rfl
  | cons c rest ih =>
    have hc : conflictKey c ∉ seen := h2 _ (by simp)
    rw [dedupKeyed_cons, if_neg hc]
    congr 1
    refine ih (conflictKey c :: seen) ((List.nodup_cons.mp h1).2) ?_
    intro k hk
    simp only [List.mem_cons, not_or]
    exact ⟨fun he => (List.nodup_cons.mp h1).1 (he ▸ hk),
           h2 k (List.mem_cons_of_mem _ hk)⟩

/-- Counterexample for C3: two conflicts with the same deduplication key
but different content; swapping the two input lists changes which one
survives, so `merge_conflicts` is not commutative over input order. -/
theorem merge_conflicts_not_commutative :
    merge_conflicts [[cLow], [cHigh]] ≠ merge_conflicts [[cHigh], [cLow]] := by
  decide

/-- C3 (amended): `merge_conflicts` is idempotent, and permuting the
input lists or the conflicts within them preserves the set of
deduplication keys of the merged result; the surviving representative
for a key, however, is the first occurrence in input order, so the full
result may change under permutation (see the counterexample). -/
theorem merge_conflicts_amended (ls ls1 ls2 : List (List Conflict))
    (h : ls1.flatten.Perm ls2.flatten) :
    merge_conflicts [merge_conflicts ls] = merge_conflicts ls ∧
    ((merge_conflicts ls1).map conflictKey).Perm
      ((merge_conflicts ls2).map conflictKey) := by
  constructor
  · show dedupKeyed ([merge_conflicts ls] : List (List Conflict)).flatten [] = _
    rw [show ([merge_conflicts ls] : List (List Conflict)).flatten =
        merge_conflicts ls by simp]
    exact dedupKeyed_noop _ _
      (nodup_map_conflictKey_dedupKeyed ls.flatten []).1 (by simp)
  · have n1 := (nodup_map_conflictKey_dedupKeyed ls1.flatten []).1
    have n2 := (nodup_map_conflictKey_dedupKeyed ls2.flatten []).1
    show ((dedupKeyed ls1.flatten []).map conflictKey).Perm
      ((dedupKeyed ls2.flatten []).map conflictKey)
    rw [List.perm_ext_iff_of_nodup n1 n2]
    intro k
    show k ∈ (dedupKeyed ls1.flatten []).map conflictKey ↔
      k ∈ (dedupKeyed ls2.flatten []).map conflictKey
    rw [mem_map_conflictKey_dedupKeyed, mem_map_conflictKey_dedupKeyed]
    simp only [List.not_mem_nil, not_false_iff, and_true]
    exact (h.map conflictKey).mem_iff

/-- Witness for C3 (amended) at concrete lists and a concrete
permutation. -/
theorem merge_conflicts_amended_witness :
    merge_conflicts [merge_conflicts [[cLow], [cMed]]] =
      merge_conflicts [[cLow], [cMed]] ∧
    ((merge_conflicts [[cLow], [cHigh]]).map conflictKey).Perm
      ((merge_conflicts [[cHigh], [cLow]]).map conflictKey) :=
  merge_conflicts_amended [[cLow], [cMed]] [[cLow], [cHigh]] [[cHigh], [cLow]]
    (by decide)

theorem findBracket_cons (t : ℚ) (w1 w2 : Waypoint) (rest : List Waypoint) :
    findBracket t (w1 :: w2 :: rest) =
      if w1.timestamp ≤ t ∧ t ≤ w2.timestamp then
        if w2.timestamp = w1.timestamp then some w1
        else some ⟨w1.x + (t - w1.timestamp) / (w2.timestamp - w1.timestamp) * (w2.x - w1.x),
                   w1.y + (t - w1.timestamp) / (w2.timestamp - w1.timestamp) * (w2.y - w1.y),
                   w1.z + (t - w1.timestamp) / (w2.timestamp - w1.timestamp) * (w2.z - w1.z),
                   t⟩
      else findBracket t (w2 :: rest) := rfl

theorem chain_head_le (w0 : Waypoint) (l : List Waypoint)
    (h : (w0 :: l).Chain' (fun a b => a.timestamp < b.timestamp)) :
    ∀ w ∈ w0 :: l, w0.timestamp ≤ w.timestamp := by
  induction l generalizing w0 with
  | nil =>
    intro w hw
    rw [List.mem_singleton] at hw
    exact hw ▸ le_refl _
  | cons w1 rest ih =>
    intro w hw
    obtain ⟨h01, h1⟩ := List.chain'_cons.mp h
    rcases List.mem_cons.mp hw with rfl | hw'
    · exact le_refl _
    · exact le_trans (le_of_lt h01) (ih w1 h1 w hw')

theorem chain_le_last (w0 : Waypoint) (l : List Waypoint)
    (h : (w0 :: l).Chain' (fun a b => a.timestamp < b.timestamp))
    (wn : Waypoint) (hlast : (w0 :: l).getLast? = some wn) :
    ∀ w ∈ w0 :: l, w.timestamp ≤ wn.timestamp := by
  induction l generalizing w0 with
  | nil =>
    rw [List.getLast?_singleton] at hlast
    intro w hw
    rw [List.mem_singleton] at hw
    rw [hw, Option.some_inj.mp hlast]
  | cons w1 rest ih =>
    intro w hw
    obtain ⟨h01, h1⟩ := List.chain'_cons.mp h
    rw [List.getLast?_cons_cons] at hlast
    have hmain := ih w1 h1 hlast
    rcases List.mem_cons.mp hw with rfl | hw'
    · exact le_trans (le_of_lt h01) (hmain w1 (by simp))
    · exact hmain w hw'

theorem findBracket_head1 (w1 w2 : Waypoint) (rest : List Waypoint)
    (hlt : w1.timestamp < w2.timestamp) :
    findBracket w1.timestamp (w1 :: w2 :: rest) = some w1 := by
  rw [findBracket_cons, if_pos ⟨le_refl _, le_of_lt hlt⟩, if_neg (ne_of_gt hlt)]
  congr 1
  ext <;> simp

theorem findBracket_head2 (w1 w2 : Waypoint) (rest : List Waypoint)
    (hlt : w1.timestamp < w2.timestamp) :
    findBracket w2.timestamp (w1 :: w2 :: rest) = some w2 := by
  rw [findBracket_cons, if_pos ⟨le_of_lt hlt, le_refl _⟩, if_neg (ne_of_gt hlt)]
  have hne : w2.timestamp - w1.timestamp ≠ 0 := sub_ne_zero.mpr (ne_of_gt hlt)
  congr 1
  ext <;> first
  | (rw [div_self hne]; ring)
  | rfl

theorem findBracket_mem (w1 w2 : Waypoint) (rest : List Waypoint)
    (h : (w1 :: w2 :: rest).Chain' (fun a b => a.timestamp < b.timestamp))
    (w : Waypoint) (hw : w ∈ w1 :: w2 :: rest) :
    findBracket w.timestamp (w1 :: w2 :: rest) = some w := by
  induction rest generalizing w1 w2 with
  | nil =>
    have hlt := List.chain'_pair.mp h
    rcases List.mem_cons.mp hw with rfl | hw'
    · exact findBracket_head1 w w2 [] hlt
    · rw [List.mem_singleton] at hw'
      subst hw'
      exact findBracket_head2 w1 w [] hlt
  | cons w3 rs ih =>
    obtain ⟨h12, h2⟩ := List.chain'_cons.mp h
    rcases List.mem_cons.mp hw with rfl | hw'
    · exact findBracket_head1 w w2 (w3 :: rs) h12
    · rcases List.mem_cons.mp hw' with rfl | hw'' 
      · exact findBracket_head2 w1 w (w3 :: rs) h12
      · obtain ⟨h23, h3⟩ := List.chain'_cons.mp h2
        have h3le : w3.timestamp ≤ w.timestamp := chain_head_le w3 rs h3 w hw''
        have h2w : w2.timestamp < w.timestamp := lt_of_lt_of_le h23 h3le
        rw [findBracket_cons, if_neg (fun hcontra => absurd hcontra.2 (not_le.mpr h2w))]
        exact ih w2 w3 h2 (List.mem_cons_of_mem _ hw'')

theorem findBracket_isSome (w1 w2 : Waypoint) (rest : List Waypoint)
    (h : (w1 :: w2 :: rest).Chain' (fun a b => a.timestamp < b.timestamp))
    (t : ℚ) (h1 : w1.timestamp ≤ t)
    (wn : Waypoint) (hlast : (w1 :: w2 :: rest).getLast? = some wn)
    (h2 : t ≤ wn.timestamp) :
    ∃ p, findBracket t (w1 :: w2 :: rest) = some p ∧ p.timestamp = t := by
  induction rest generalizing w1 w2 with
  | nil =>
    have hlt := List.chain'_pair.mp h
    rw [List.getLast?_cons_cons, List.getLast?_singleton] at hlast
    have hw2 : t ≤ w2.timestamp := Option.some_inj.mp hlast ▸ h2
    rw [findBracket_cons, if_pos ⟨h1, hw2⟩, if_neg (ne_of_gt hlt)]
    exact ⟨_, rfl, rfl⟩
  | cons w3 rs ih =>
    obtain ⟨h12, hch2⟩ := List.chain'_cons.mp h
    by_cases ht : t ≤ w2.timestamp
    · rw [findBracket_cons, if_pos ⟨h1, ht⟩, if_neg (ne_of_gt h12)]
      exact ⟨_, rfl, rfl⟩
    · rw [findBracket_cons, if_neg (fun hcontra => absurd hcontra.2 ht)]
      rw [List.getLast?_cons_cons] at hlast
      exact ih w2 w3 hch2 (le_of_lt (not_le.mp ht)) hlast

theorem interpolate_position_eq (tr : DroneTrajectory) (w1 w2 : Waypoint)
    (rest : List Waypoint) (wn : Waypoint)
    (hl : tr.waypoints = w1 :: w2 :: rest)
    (hlast : tr.waypoints.getLast? = some wn) (t : ℚ) :
    tr.interpolate_position t =
      if t < w1.timestamp ∨ wn.timestamp < t then none
      else findBracket t tr.waypoints := by
  unfold DroneTrajectory.interpolate_position
  rw [hl] at hlast ⊢
  rw [hlast]
  rfl

theorem bounds_eq (tr : DroneTrajectory) (w1 : Waypoint) (tl : List Waypoint)
    (wn : Waypoint) (hl : tr.waypoints = w1 :: tl)
    (hlast : tr.waypoints.getLast? = some wn) :
    tr.get_trajectory_bounds = (w1.timestamp, wn.timestamp) := by
  unfold DroneTrajectory.get_trajectory_bounds
  rw [hl] at hlast ⊢
  rw [hlast, List.head?_cons]
  rfl

/-- C5: interpolation at the exact timestamp of any original waypoint of
a valid trajectory returns that waypoint exactly. -/
theorem interpolate_at_waypoint (tr : DroneTrajectory) (h : tr.Valid)
    (w : Waypoint) (hw : w ∈ tr.waypoints) :
    tr.interpolate_position w.timestamp = some w := by
  obtain ⟨hlen, hchB⟩ := h
  have hch := (chainLtB_iff _).mp hchB
  cases hl : tr.waypoints with
  | nil =>
    rw [hl] at hlen
    simp at hlen
  | cons w1 tl =>
    cases hl2 : tl with
    | nil =>
      rw [hl, hl2] at hlen
      simp at hlen
    | cons w2 rest =>
      rw [hl2] at hl
      rw [hl] at hch hw
      have hne : (w1 :: w2 :: rest : List Waypoint) ≠ [] := by simp
      have hlast : tr.waypoints.getLast? =
          some ((w1 :: w2 :: rest).getLast hne) := by
        rw [hl]
        exact List.getLast?_eq_getLast _ hne
      have hmemlast : (w1 :: w2 :: rest).getLast hne ∈ w1 :: w2 :: rest :=
        List.getLast_mem hne
      rw [interpolate_position_eq tr w1 w2 rest _ hl hlast]
      rw [if_neg]
      · rw [hl]
        exact findBracket_mem w1 w2 rest hch w hw
      · push_neg
        refine ⟨chain_head_le w1 (w2 :: rest) hch w hw, ?_⟩
        exact chain_le_last w1 (w2 :: rest) hch _
          (List.getLast?_eq_getLast _ hne) w hw

/-- Witness for C5: the crossing trajectory trB at its own first
waypoint's timestamp. -/
theorem interpolate_at_waypoint_witness :
    trB.interpolate_position (⟨0, 50, 100, 2⟩ : Waypoint).timestamp =
      some ⟨0, 50, 100, 2⟩ :=
  interpolate_at_waypoint trB (by decide) ⟨0, 50, 100, 2⟩ (by decide)

/-- C6: for a valid trajectory, interpolation returns no value exactly
when the queried time lies strictly outside the trajectory bounds, and a
position for every time within them. -/
theorem interpolate_none_iff (tr : DroneTrajectory) (h : tr.Valid) (t : ℚ) :
    tr.interpolate_position t = none ↔
      t < tr.get_trajectory_bounds.1 ∨ tr.get_trajectory_bounds.2 < t := by
  obtain ⟨hlen, hchB⟩ := h
  have hch := (chainLtB_iff _).mp hchB
  cases hl : tr.waypoints with
  | nil =>
    rw [hl] at hlen
    simp at hlen
  | cons w1 tl =>
    cases hl2 : tl with
    | nil =>
      rw [hl, hl2] at hlen
      simp at hlen
    | cons w2 rest =>
      rw [hl2] at hl
      rw [hl] at hch
      have hne : (w1 :: w2 :: rest : List Waypoint) ≠ [] := by simp
      have hlast : tr.waypoints.getLast? =
          some ((w1 :: w2 :: rest).getLast hne) := by
        rw [hl]
        exact List.getLast?_eq_getLast _ hne
      rw [bounds_eq tr w1 tl _ (hl2 ▸ hl) hlast]
      rw [interpolate_position_eq tr w1 w2 rest _ hl hlast]
      by_cases hout : t < w1.timestamp ∨
          ((w1 :: w2 :: rest).getLast hne).timestamp < t
      · rw [if_pos hout]
        simpa using hout
      · rw [if_neg hout]
        push_neg at hout
        obtain ⟨p, hp, -⟩ := findBracket_isSome w1 w2 rest hch t hout.1 _
          (List.getLast?_eq_getLast _ hne) hout.2
        rw [hl, hp]
        constructor
        · intro hcontra
          cases hcontra
        · intro hcontra
          rcases hcontra with h' | h'
          · exact absurd h' (not_lt.mpr hout.1)
          · exact absurd h' (not_lt.mpr hout.2)

/-- Witness for C6: trajectory trA queried after its end time. -/
theorem interpolate_none_iff_witness :
    trA.interpolate_position 11 = none ↔
      (11 : ℚ) < trA.get_trajectory_bounds.1 ∨ trA.get_trajectory_bounds.2 < 11 :=
  interpolate_none_iff trA (by decide) 11

theorem interpolate_within (tr : DroneTrajectory) (h : tr.Valid) (t : ℚ)
    (h1 : tr.get_trajectory_bounds.1 ≤ t)
    (h2 : t ≤ tr.get_trajectory_bounds.2) :
    ∃ p, tr.interpolate_position t = some p ∧ p.timestamp = t := by
  obtain ⟨hlen, hchB⟩ := h
  have hch := (chainLtB_iff _).mp hchB
  cases hl : tr.waypoints with
  | nil =>
    rw [hl] at hlen
    simp at hlen
  | cons w1 tl =>
    cases hl2 : tl with
    | nil =>
      rw [hl, hl2] at hlen
      simp at hlen
    | cons w2 rest =>
      rw [hl2] at hl
      rw [hl] at hch
      have hne : (w1 :: w2 :: rest : List Waypoint) ≠ [] := by simp
      have hlast : tr.waypoints.getLast? =
          some ((w1 :: w2 :: rest).getLast hne) := by
        rw [hl]
        exact List.getLast?_eq_getLast _ hne
      rw [bounds_eq tr w1 tl _ (hl2 ▸ hl) hlast] at h1 h2
      obtain ⟨p, hp, hpt⟩ := findBracket_isSome w1 w2 rest hch t h1 _
        (List.getLast?_eq_getLast _ hne) h2
      refine ⟨p, ?_, hpt⟩
      rw [interpolate_position_eq tr w1 w2 rest _ hl hlast,
        if_neg (by push_neg; exact ⟨h1, h2⟩), hl]
      exact hp

theorem bounds_le (tr : DroneTrajectory) (h : tr.Valid) :
    tr.get_trajectory_bounds.1 ≤ tr.get_trajectory_bounds.2 := by
  obtain ⟨hlen, hchB⟩ := h
  have hch := (chainLtB_iff _).mp hchB
  cases hl : tr.waypoints with
  | nil =>
    rw [hl] at hlen
    simp at hlen
  | cons w1 tl =>
    cases hl2 : tl with
    | nil =>
      rw [hl, hl2] at hlen
      simp at hlen
    | cons w2 rest =>
      rw [hl2] at hl
      rw [hl] at hch
      have hne : (w1 :: w2 :: rest : List Waypoint) ≠ [] := by simp
      have hlast : tr.waypoints.getLast? =
          some ((w1 :: w2 :: rest).getLast hne) := by
        rw [hl]
        exact List.getLast?_eq_getLast _ hne
      rw [bounds_eq tr w1 tl _ (hl2 ▸ hl) hlast]
      exact chain_le_last w1 (w2 :: rest) hch _
        (List.getLast?_eq_getLast _ hne) w1 (by simp)

theorem sample_timestamps (tr : DroneTrajectory) (h : tr.Valid)
    (ts : List ℚ)
    (hts : ∀ x ∈ ts, tr.get_trajectory_bounds.1 ≤ x ∧
      x ≤ tr.get_trajectory_bounds.2) :
    (ts.filterMap tr.interpolate_position).map Waypoint.timestamp = ts := by
  induction ts with
  | nil => rfl
  | cons t ts' ih =>
    obtain ⟨p, hp, hpt⟩ := interpolate_within tr h t
      (hts t (by simp)).1 (hts t (by simp)).2
    rw [List.filterMap_cons, hp]
    simp only [List.map_cons, hpt]
    rw [ih (fun x hx => hts x (List.mem_cons_of_mem _ hx))]

theorem linspace_length (a b : ℚ) (n : ℕ) : (linspace a b n).length = n := by
  unfold linspace
  by_cases h0 : n = 0
  · simp [h0]
  · rw [if_neg h0]
    by_cases h1 : n = 1
    · simp [h1]
    · rw [if_neg h1]
      simp

theorem linspace_mem_bounds (a b : ℚ) (hab : a ≤ b) (n : ℕ) :
    ∀ x ∈ linspace a b n, a ≤ x ∧ x ≤ b := by
  unfold linspace
  by_cases h0 : n = 0
  · simp [h0]
  · rw [if_neg h0]
    by_cases h1 : n = 1
    · rw [if_pos h1]
      intro x hx
      rw [List.mem_singleton] at hx
      exact ⟨hx ▸ le_refl a, hx ▸ hab⟩
    · rw [if_neg h1]
      intro x hx
      simp only [List.mem_map, List.mem_range] at hx
      obtain ⟨i, hi, rfl⟩ := hx
      have hn2 : 2 ≤ n := by omega
      have hm : (0 : ℚ) < (n : ℚ) - 1 := by
        have : (2 : ℚ) ≤ (n : ℚ) := by exact_mod_cast hn2
        linarith
      have hba : (0 : ℚ) ≤ b - a := sub_nonneg.mpr hab
      constructor
      · have : (0 : ℚ) ≤ (b - a) * i / ((n : ℚ) - 1) :=
          div_nonneg (mul_nonneg hba (by positivity)) (le_of_lt hm)
        linarith
      · have hi' : (i : ℚ) ≤ (n : ℚ) - 1 := by
          have : (i : ℚ) + 1 ≤ (n : ℚ) := by exact_mod_cast hi
          linarith
        have : (b - a) * i / ((n : ℚ) - 1) ≤ b - a := by
          rw [div_le_iff hm]
          calc (b - a) * i ≤ (b - a) * ((n : ℚ) - 1) :=
            mul_le_mul_of_nonneg_left hi' hba
          _ = (b - a) * ((n : ℚ) - 1) := rfl
        linarith

theorem linspace_chain' (a b : ℚ) (hab : a ≤ b) (n : ℕ) :
    (linspace a b n).Chain' (· ≤ ·) := by
  unfold linspace
  by_cases h0 : n = 0
  · simp [h0]
  · rw [if_neg h0]
    by_cases h1 : n = 1
    · simp [h1]
    · rw [if_neg h1]
      obtain ⟨m, rfl⟩ : ∃ m, n = m + 1 := ⟨n - 1, by omega⟩
      rw [List.chain'_map, List.chain'_range_succ]
      intro k hk
      have hm : (0 : ℚ) < ((m : ℚ) + 1) - 1 := by
        have : 1 ≤ m := by omega
        have : (1 : ℚ) ≤ (m : ℚ) := by exact_mod_cast this
        push_cast
        linarith
      have hstep : ((m : ℚ) + 1) - 1 = ((m + 1 : ℕ) : ℚ) - 1 := by push_cast; ring
      gcongr a + (b - a) * ?_ / (((m + 1 : ℕ) : ℚ) - 1)
      · push_cast
        linarith
      · linarith
      · push_cast
        linarith

theorem linspace_head (a b : ℚ) (n : ℕ) (hn : 2 ≤ n) :
    (linspace a b n).head? = some a := by
  unfold linspace
  rw [if_neg (by omega), if_neg (by omega)]
  obtain ⟨m, rfl⟩ : ∃ m, n = m + 1 := ⟨n - 1, by omega⟩
  rw [List.range_succ_eq_map]
  simp

theorem linspace_getLast (a b : ℚ) (n : ℕ) (hn : 2 ≤ n) :
    (linspace a b n).getLast? = some b := by
  unfold linspace
  rw [if_neg (by omega), if_neg (by omega)]
  obtain ⟨m, rfl⟩ : ∃ m, n = m + 1 := ⟨n - 1, by omega⟩
  rw [List.range_succ, List.map_append, List.map_singleton, List.getLast?_concat]
  have hm' : (m : ℚ) ≠ 0 := by
    have h1 : 1 ≤ m := by omega
    have h2 : (1 : ℚ) ≤ (m : ℚ) := by exact_mod_cast h1
    linarith
  congr 1
  have hcast : ((m + 1 : ℕ) : ℚ) - 1 = (m : ℚ) := by
    push_cast
    ring
  rw [hcast, mul_div_assoc, div_self hm', mul_one]
  ring

/-- Counterexample for C8: sampling a valid trajectory at n = 1 point
yields a single sample at the start time, whose last timestamp is not
the trajectory's end bound, refuting the claim for every n. -/
theorem sample_trajectory_one_violates :
    ((trA.sample_trajectory 1).map Waypoint.timestamp).getLast? ≠
      some trA.get_trajectory_bounds.2 := by
  decide

/-- C8 (amended): for a valid trajectory and n at least 2,
`sample_trajectory n` has length at most n, non-decreasing timestamps,
and first/last timestamps equal to the trajectory bounds (for n below 2
the last sample cannot reach the end bound, see the counterexample). -/
theorem sample_trajectory_spec (tr : DroneTrajectory) (h : tr.Valid)
    (n : ℕ) (hn : 2 ≤ n) :
    (tr.sample_trajectory n).length ≤ n ∧
    ((tr.sample_trajectory n).map Waypoint.timestamp).Chain' (· ≤ ·) ∧
    (tr.sample_trajectory n).head?.map Waypoint.timestamp =
      some tr.get_trajectory_bounds.1 ∧
    (tr.sample_trajectory n).getLast?.map Waypoint.timestamp =
      some tr.get_trajectory_bounds.2 := by
  have hab := bounds_le tr h
  have hts := sample_timestamps tr h
    (linspace tr.get_trajectory_bounds.1 tr.get_trajectory_bounds.2 n)
    (linspace_mem_bounds _ _ hab n)
  have hsamp : tr.sample_trajectory n =
      (linspace tr.get_trajectory_bounds.1 tr.get_trajectory_bounds.2 n).filterMap
        tr.interpolate_position := rfl
  refine ⟨?_, ?_, ?_, ?_⟩
  · rw [hsamp]
    calc ((linspace tr.get_trajectory_bounds.1 tr.get_trajectory_bounds.2
        n).filterMap tr.interpolate_position).length
        ≤ (linspace tr.get_trajectory_bounds.1 tr.get_trajectory_bounds.2
            n).length := List.length_filterMap_le _ _
    _ = n := linspace_length _ _ _
  · rw [hsamp, hts]
    exact linspace_chain' _ _ hab n
  · rw [hsamp, ← List.head?_map, hts, linspace_head _ _ n hn]
  · rw [hsamp, ← List.getLast?_map, hts, linspace_getLast _ _ n hn]

/-- Witness for C8 (amended) at trajectory trA with n = 2. -/
theorem sample_trajectory_spec_witness :
    (trA.sample_trajectory 2).length ≤ 2 ∧
    ((trA.sample_trajectory 2).map Waypoint.timestamp).Chain' (· ≤ ·) ∧
    (trA.sample_trajectory 2).head?.map Waypoint.timestamp =
      some trA.get_trajectory_bounds.1 ∧
    (trA.sample_trajectory 2).getLast?.map Waypoint.timestamp =
      some trA.get_trajectory_bounds.2 :=
  sample_trajectory_spec trA (by decide) 2 (by decide)

theorem pairsFold_cons (f : DroneTrajectory → DroneTrajectory → List Conflict)
    (tr : DroneTrajectory) (rest : List DroneTrajectory) :
    pairsFold f (tr :: rest) = rest.flatMap (f tr) ++ pairsFold f rest := rfl

theorem mem_pairsFold (f : DroneTrajectory → DroneTrajectory → List Conflict)
    (l : List DroneTrajectory) (c : Conflict) :
    c ∈ pairsFold f l ↔
      ∃ tr1 tr2 pre mid post,
        l = pre ++ tr1 :: (mid ++ tr2 :: post) ∧ c ∈ f tr1 tr2 := by
  induction l with
  | nil =>
    constructor
    · intro h
      cases h
    · rintro ⟨tr1, tr2, pre, mid, post, heq, -⟩
      cases pre <;> simp at heq
  | cons tr rest ih =>
    rw [pairsFold_cons, List.mem_append, List.mem_flatMap, ih]
    constructor
    · rintro (⟨tr2, htr2, hc⟩ | ⟨tr1, tr2, pre, mid, post, heq, hc⟩)
      · obtain ⟨mid, post, rfl⟩ := List.append_of_mem htr2
        exact ⟨tr, tr2, [], mid, post, rfl, hc⟩
      · exact ⟨tr1, tr2, tr :: pre, mid, post, by rw [heq]; rfl, hc⟩
    · rintro ⟨tr1, tr2, pre, mid, post, heq, hc⟩
      cases pre with
      | nil =>
        simp only [List.nil_append, List.cons.injEq] at heq
        obtain ⟨rfl, rfl⟩ := heq
        exact Or.inl ⟨tr2, by simp, hc⟩
      | cons p ps =>
        simp only [List.cons_append, List.cons.injEq] at heq
        obtain ⟨rfl, rfl⟩ := heq
        exact Or.inr ⟨tr1, tr2, ps, mid, post, rfl, hc⟩

theorem mem_temporalPairConflicts (tw d : ℚ) (tr1 tr2 : DroneTrajectory)
    (c : Conflict) :
    c ∈ temporalPairConflicts tw d tr1 tr2 ↔
      ∃ wp1 ∈ tr1.sample_trajectory 50, ∃ wp2 ∈ tr2.sample_trajectory 50,
        SqrtLt (wp1.dist2 wp2) d ∧
        0 < |wp1.timestamp - wp2.timestamp| ∧
        |wp1.timestamp - wp2.timestamp| ≤ tw ∧
        c = ⟨tr1.drone_id, tr2.drone_id, min wp1.timestamp wp2.timestamp,
             wp1.dist2 wp2, wp1, wp2,
             if |wp1.timestamp - wp2.timestamp| < 3 / 10 * tw then "high"
             else "medium", "temporal"⟩ := by
  unfold temporalPairConflicts
  simp only [List.mem_flatMap, List.mem_filterMap]
  constructor
  · rintro ⟨wp1, h1, wp2, h2, hg⟩
    by_cases hd : sqrtLt (wp1.dist2 wp2) d = true
    · rw [if_pos hd] at hg
      by_cases htd : 0 < |wp1.timestamp - wp2.timestamp| ∧
          |wp1.timestamp - wp2.timestamp| ≤ tw
      · rw [if_pos htd] at hg
        exact ⟨wp1, h1, wp2, h2, (sqrtLt_iff_sqrt _ _).mp hd, htd.1, htd.2,
          (Option.some_inj.mp hg).symm⟩
      · rw [if_neg htd] at hg
        cases hg
    · rw [if_neg hd] at hg
      cases hg
  · rintro ⟨wp1, h1, wp2, h2, hsq, ht1, ht2, rfl⟩
    refine ⟨wp1, h1, wp2, h2, ?_⟩
    rw [if_pos ((sqrtLt_iff_sqrt _ _).mpr hsq), if_pos ⟨ht1, ht2⟩]

/-- C2: membership in the temporal detector's output is exactly the
existence of a cross pair of sampled points of an ordered trajectory
pair at real distance below min_separation with time offset in
(0, time_window]; every emitted conflict is of type temporal, carries
the earlier sample timestamp, and is high exactly below 0.3 of the
window and medium otherwise, never low. -/
theorem detect_temporal_spec (trajs : List DroneTrajectory) (tw d : ℚ)
    (c : Conflict) :
    (c ∈ detect_temporal_conflicts trajs tw d ↔
      ∃ tr1 tr2 pre mid post,
        trajs = pre ++ tr1 :: (mid ++ tr2 :: post) ∧
        ∃ wp1 ∈ tr1.sample_trajectory 50, ∃ wp2 ∈ tr2.sample_trajectory 50,
          SqrtLt (wp1.dist2 wp2) d ∧
          0 < |wp1.timestamp - wp2.timestamp| ∧
          |wp1.timestamp - wp2.timestamp| ≤ tw ∧
          c = ⟨tr1.drone_id, tr2.drone_id, min wp1.timestamp wp2.timestamp,
               wp1.dist2 wp2, wp1, wp2,
               if |wp1.timestamp - wp2.timestamp| < 3 / 10 * tw then "high"
               else "medium", "temporal"⟩) ∧
    (c ∈ detect_temporal_conflicts trajs tw d →
      c.conflict_type = "temporal" ∧
      c.timestamp = min c.position1.timestamp c.position2.timestamp ∧
      c.severity ≠ "low" ∧
      (c.severity = "high" ↔
        |c.position1.timestamp - c.position2.timestamp| < 3 / 10 * tw) ∧
      (c.severity = "medium" ↔
        3 / 10 * tw ≤ |c.position1.timestamp - c.position2.timestamp|)) := by
  have hmem : c ∈ detect_temporal_conflicts trajs tw d ↔
      ∃ tr1 tr2 pre mid post,
        trajs = pre ++ tr1 :: (mid ++ tr2 :: post) ∧
        ∃ wp1 ∈ tr1.sample_trajectory 50, ∃ wp2 ∈ tr2.sample_trajectory 50,
          SqrtLt (wp1.dist2 wp2) d ∧
          0 < |wp1.timestamp - wp2.timestamp| ∧
          |wp1.timestamp - wp2.timestamp| ≤ tw ∧
          c = ⟨tr1.drone_id, tr2.drone_id, min wp1.timestamp wp2.timestamp,
               wp1.dist2 wp2, wp1, wp2,
               if |wp1.timestamp - wp2.timestamp| < 3 / 10 * tw then "high"
               else "medium", "temporal"⟩ := by
    unfold detect_temporal_conflicts
    rw [mem_pairsFold]
    simp only [mem_temporalPairConflicts]
  refine ⟨hmem, fun hc => ?_⟩
  obtain ⟨tr1, tr2, pre, mid, post, -, wp1, h1, wp2, h2, hsq, ht1, ht2, rfl⟩ :=
    hmem.mp hc
  refine ⟨rfl, rfl, ?_, ?_, ?_⟩ <;>
    by_cases hlt : |wp1.timestamp - wp2.timestamp| < 3 / 10 * tw
  · simp only [if_pos hlt]
    decide
  · simp only [if_neg hlt]
    decide
  · simp only [if_pos hlt]
    exact iff_of_true trivial hlt
  · simp only [if_neg hlt]
    exact iff_of_false (by decide) hlt
  · simp only [if_pos hlt]
    exact iff_of_false (by decide) (not_le.mpr hlt)
  · simp only [if_neg hlt]
    exact iff_of_true trivial (not_lt.mp hlt)

theorem conflictsAt_cons (d t : ℚ) (e : String × Waypoint)
    (rest : List (String × Waypoint)) :
    conflictsAt d t (e :: rest) =
      (rest.filterMap fun q =>
        if sqrtLt (e.2.dist2 q.2) d then
          some (mkSpatialConflict d t e.1 q.1 e.2 q.2)
        else none) ++ conflictsAt d t rest := rfl

theorem mem_conflictsAt (d t : ℚ) (ps : List (String × Waypoint))
    (c : Conflict) :
    c ∈ conflictsAt d t ps ↔
      ∃ e1 e2 pre mid post,
        ps = pre ++ e1 :: (mid ++ e2 :: post) ∧
        sqrtLt ((e1 : String × Waypoint).2.dist2 e2.2) d = true ∧
        c = mkSpatialConflict d t e1.1 e2.1 e1.2 e2.2 := by
  induction ps with
  | nil =>
    constructor
    · intro h
      cases h
    · rintro ⟨e1, e2, pre, mid, post, heq, -, -⟩
      cases pre <;> simp at heq
  | cons e rest ih =>
    rw [conflictsAt_cons, List.mem_append, List.mem_filterMap, ih]
    constructor
    · rintro (⟨q, hq, hif⟩ | ⟨e1, e2, pre, mid, post, heq, hs, hc⟩)
      · by_cases hd : sqrtLt (e.2.dist2 q.2) d = true
        · rw [if_pos hd] at hif
          obtain ⟨mid, post, rfl⟩ := List.append_of_mem hq
          exact ⟨e, q, [], mid, post, rfl, hd, (Option.some_inj.mp hif).symm⟩
        · rw [if_neg hd] at hif
          cases hif
      · exact ⟨e1, e2, e :: pre, mid, post, by rw [heq]; rfl, hs, hc⟩
    · rintro ⟨e1, e2, pre, mid, post, heq, hs, hc⟩
      cases pre with
      | nil =>
        simp only [List.nil_append, List.cons.injEq] at heq
        obtain ⟨rfl, rfl⟩ := heq
        refine Or.inl ⟨e2, by simp, ?_⟩
        rw [if_pos hs, hc]
      | cons p pstail =>
        simp only [List.cons_append, List.cons.injEq] at heq
        obtain ⟨rfl, rfl⟩ := heq
        exact Or.inr ⟨e1, e2, pstail, mid, post, rfl, hs, hc⟩

theorem insertPos_append (acc : List (String × Waypoint)) (k : String)
    (v : Waypoint) (h : ∀ e ∈ acc, (e : String × Waypoint).1 ≠ k) :
    insertPos acc k v = acc ++ [(k, v)] := by
  induction acc with
  | nil => rfl
  | cons e rest ih =>
    obtain ⟨k', v'⟩ := e
    unfold insertPos
    rw [if_neg (h (k', v') (by simp))]
    rw [ih (fun e he => h e (List.mem_cons_of_mem _ he))]
    rfl

theorem positionsAt_foldl (t : ℚ) (trajs : List DroneTrajectory)
    (acc : List (String × Waypoint))
    (hdisj : ∀ e ∈ acc, (e : String × Waypoint).1 ∉
      trajs.map DroneTrajectory.drone_id)
    (hnd : (trajs.map DroneTrajectory.drone_id).Nodup) :
    trajs.foldl
      (fun acc tr =>
        match tr.interpolate_position t with
        | some p => insertPos acc tr.drone_id p
        | none => acc)
      acc =
    acc ++ trajs.filterMap
      (fun tr => (tr.interpolate_position t).map fun p => (tr.drone_id, p)) := by
  induction trajs generalizing acc with
  | nil => simp
  | cons tr rest ih =>
    rw [List.foldl_cons, List.filterMap_cons]
    obtain ⟨hnd1, hnd2⟩ := by
      rw [List.map_cons, List.nodup_cons] at hnd
      exact hnd
    cases hint : tr.interpolate_position t with
    | none =>
      simp only [hint, Option.map_none']
      exact ih acc (fun e he => fun hmem =>
        hdisj e he (List.mem_cons_of_mem _ hmem)) hnd2
    | some p =>
      simp only [hint, Option.map_some']
      rw [insertPos_append acc tr.drone_id p
        (fun e he => fun heq => hdisj e he (by rw [heq]; simp))]
      rw [ih (acc ++ [(tr.drone_id, p)]) ?_ hnd2]
      · rw [List.append_assoc]
        rfl
      · intro e he
        rcases List.mem_append.mp he with he' | he'
        · exact fun hmem => hdisj e he' (List.mem_cons_of_mem _ hmem)
        · rw [List.mem_singleton] at he'
          rw [he']
          exact hnd1
    
theorem positionsAt_eq (trajs : List DroneTrajectory) (t : ℚ)
    (hids : (trajs.map DroneTrajectory.drone_id).Nodup) :
    positionsAt trajs t =
      trajs.filterMap
        (fun tr => (tr.interpolate_position t).map fun p => (tr.drone_id, p)) := by
  unfold positionsAt
  exact positionsAt_foldl t trajs [] (by simp) hids

theorem filterMap_eq_append_cons {α β : Type} (F : α → Option β)
    (l : List α) (pre : List β) (b : β) (rest : List β)
    (h : l.filterMap F = pre ++ b :: rest) :
    ∃ l1 x l2, l = l1 ++ x :: l2 ∧ F x = some b ∧
      l1.filterMap F = pre ∧ l2.filterMap F = rest := by
  induction l generalizing pre with
  | nil =>
    simp at h
  | cons a l' ih =>
    rw [List.filterMap_cons] at h
    cases hFa : F a with
    | none =>
      rw [hFa] at h
      obtain ⟨l1, x, l2, rfl, hx, h1, h2⟩ := ih pre h
      exact ⟨a :: l1, x, l2, rfl, hx, by rw [List.filterMap_cons, hFa, h1], h2⟩
    | some b' =>
      rw [hFa] at h
      cases pre with
      | nil =>
        simp only [List.nil_append, List.cons.injEq] at h
        obtain ⟨rfl, h2⟩ := h
        exact ⟨[], a, l', rfl, hFa, rfl, h2⟩
      | cons p ps =>
        simp only [List.cons_append, List.cons.injEq] at h
        obtain ⟨rfl, h2⟩ := h
        obtain ⟨l1, x, l2, rfl, hx, h1, h2'⟩ := ih ps h2
        exact ⟨a :: l1, x, l2, rfl, hx,
          by rw [List.filterMap_cons, hFa, h1], h2'⟩

theorem filterMap_split_pair {α β : Type} (F : α → Option β) (l : List α)
    (pre mid post : List β) (b1 b2 : β)
    (h : l.filterMap F = pre ++ b1 :: (mid ++ b2 :: post)) :
    ∃ x1 x2 l1 l2 l3, l = l1 ++ x1 :: (l2 ++ x2 :: l3) ∧
      F x1 = some b1 ∧ F x2 = some b2 := by
  obtain ⟨l1, x1, l2, rfl, hx1, -, h2⟩ :=
    filterMap_eq_append_cons F l pre b1 (mid ++ b2 :: post) h
  obtain ⟨l2a, x2, l2b, rfl, hx2, -, -⟩ :=
    filterMap_eq_append_cons F l2 mid b2 post h2
  exact ⟨x1, x2, l1, l2a, l2b, rfl, hx1, hx2⟩

theorem filterMap_join_pair {α β : Type} (F : α → Option β)
    (l1 l2 l3 : List α) (x1 x2 : α) (b1 b2 : β)
    (hx1 : F x1 = some b1) (hx2 : F x2 = some b2) :
    ∃ pre mid post,
      (l1 ++ x1 :: (l2 ++ x2 :: l3)).filterMap F =
        pre ++ b1 :: (mid ++ b2 :: post) := by
  refine ⟨l1.filterMap F, l2.filterMap F, l3.filterMap F, ?_⟩
  rw [List.filterMap_append, List.filterMap_cons, hx1,
    List.filterMap_append, List.filterMap_cons, hx2]

theorem detect_spatial_eq_flatMap (trajs : List DroneTrajectory) (d res : ℚ)
    (hlen : ¬ trajs.length < 2)
    (hw : ¬ globalEnd trajs ≤ globalStart trajs) :
    detect_spatial_conflicts trajs d res =
      (timeSamples trajs res).flatMap fun t =>
        conflictsAt d t (positionsAt trajs t) := by
  unfold detect_spatial_conflicts
  rw [if_neg hlen, if_neg hw]

theorem mem_detect_spatial (trajs : List DroneTrajectory) (d res : ℚ)
    (c : Conflict) (hids : (trajs.map DroneTrajectory.drone_id).Nodup) :
    c ∈ detect_spatial_conflicts trajs d res ↔
      2 ≤ trajs.length ∧ globalStart trajs < globalEnd trajs ∧
      ∃ t ∈ timeSamples trajs res, ∃ tr1 tr2 pre mid post,
        trajs = pre ++ tr1 :: (mid ++ tr2 :: post) ∧
        ∃ p1 p2, tr1.interpolate_position t = some p1 ∧
          tr2.interpolate_position t = some p2 ∧
          sqrtLt (p1.dist2 p2) d = true ∧
          c = mkSpatialConflict d t tr1.drone_id tr2.drone_id p1 p2 := by
  by_cases hlen : trajs.length < 2
  · unfold detect_spatial_conflicts
    rw [if_pos hlen]
    constructor
    · intro h
      cases h
    · rintro ⟨h2, -⟩
      omega
  · by_cases hw : globalEnd trajs ≤ globalStart trajs
    · unfold detect_spatial_conflicts
      rw [if_neg hlen, if_pos hw]
      constructor
      · intro h
        cases h
      · rintro ⟨-, hlt, -⟩
        exact absurd hw (not_le.mpr hlt)
    · rw [detect_spatial_eq_flatMap _ _ _ hlen hw, List.mem_flatMap]
      constructor
      · rintro ⟨t, ht, hc⟩
        refine ⟨by omega, not_le.mp hw, t, ht, ?_⟩
        rw [mem_conflictsAt] at hc
        obtain ⟨e1, e2, pre, mid, post, heq, hs, hceq⟩ := hc
        rw [positionsAt_eq trajs t hids] at heq
        obtain ⟨tr1, tr2, l1, l2, l3, rfl, hF1, hF2⟩ :=
          filterMap_split_pair _ trajs pre mid post e1 e2 heq
        rw [Option.map_eq_some'] at hF1 hF2
        obtain ⟨p1, hp1, he1⟩ := hF1
        obtain ⟨p2, hp2, he2⟩ := hF2
        subst he1
        subst he2
        exact ⟨tr1, tr2, l1, l2, l3, rfl, p1, p2, hp1, hp2, hs, hceq⟩
      · rintro ⟨-, -, t, ht, tr1, tr2, l1, l2, l3, rfl, p1, p2, hp1, hp2, hs, rfl⟩
        refine ⟨t, ht, ?_⟩
        rw [mem_conflictsAt]
        have hF1 : (fun tr =>
            (tr.interpolate_position t).map fun p => (tr.drone_id, p)) tr1 =
            some (tr1.drone_id, p1) := by
          simp only [hp1, Option.map_some']
        have hF2 : (fun tr =>
            (tr.interpolate_position t).map fun p => (tr.drone_id, p)) tr2 =
            some (tr2.drone_id, p2) := by
          simp only [hp2, Option.map_some']
        obtain ⟨pre, mid, post, hsplit⟩ :=
          filterMap_join_pair
            (fun tr => (tr.interpolate_position t).map fun p => (tr.drone_id, p))
            l1 l2 l3 tr1 tr2 _ _ hF1 hF2
        refine ⟨(tr1.drone_id, p1), (tr2.drone_id, p2), pre, mid, post, ?_, hs, rfl⟩
        rw [positionsAt_eq _ t hids, hsplit]

theorem spatialSeverity_spec (s2 d : ℚ) (h : sqrtLt s2 d = true) :
    (spatialSeverity s2 d = "high" ↔ SqrtLt s2 (3 / 10 * d)) ∧
    (spatialSeverity s2 d = "medium" ↔
      ¬ SqrtLt s2 (3 / 10 * d) ∧ SqrtLt s2 (6 / 10 * d)) ∧
    (spatialSeverity s2 d = "low" ↔ ¬ SqrtLt s2 (6 / 10 * d)) := by
  clear h
  unfold spatialSeverity
  by_cases h3 : sqrtLt s2 (3 / 10 * d) = true
  · rw [if_pos h3]
    have hsq3 := (sqrtLt_iff_sqrt s2 _).mp h3
    have hd : (0 : ℚ) < 3 / 10 * d := by
      have h0 : (0 : ℝ) < ((3 / 10 * d : ℚ) : ℝ) :=
        lt_of_le_of_lt (Real.sqrt_nonneg _) hsq3
      exact_mod_cast h0
    have hle : ((3 / 10 * d : ℚ) : ℝ) ≤ ((6 / 10 * d : ℚ) : ℝ) := by
      have h6 : (3 / 10 * d : ℚ) ≤ 6 / 10 * d := by linarith
      exact_mod_cast h6
    have hsq6 : SqrtLt s2 (6 / 10 * d) := lt_of_lt_of_le hsq3 hle
    refine ⟨iff_of_true rfl hsq3, ?_, ?_⟩
    · exact iff_of_false (by decide) (fun hn => hn.1 hsq3)
    · exact iff_of_false (by decide) (fun hn => hn hsq6)
  · rw [if_neg h3]
    have hn3 : ¬ SqrtLt s2 (3 / 10 * d) :=
      fun hc => h3 ((sqrtLt_iff_sqrt _ _).mpr hc)
    by_cases h6 : sqrtLt s2 (6 / 10 * d) = true
    · rw [if_pos h6]
      have hsq6 := (sqrtLt_iff_sqrt s2 _).mp h6
      refine ⟨iff_of_false (by decide) hn3,
        iff_of_true rfl ⟨hn3, hsq6⟩,
        iff_of_false (by decide) (fun hn => hn hsq6)⟩
    · rw [if_neg h6]
      have hn6 : ¬ SqrtLt s2 (6 / 10 * d) :=
        fun hc => h6 ((sqrtLt_iff_sqrt _ _).mpr hc)
      refine ⟨iff_of_false (by decide) hn3,
        iff_of_false (by decide) (fun hn => hn6 hn.2),
        iff_of_true rfl hn6⟩

theorem before_antisymm {α : Type} (l : List α) (hnd : l.Nodup) (x y : α)
    (h1 : ∃ p m s, l = p ++ x :: (m ++ y :: s))
    (h2 : ∃ p m s, l = p ++ y :: (m ++ x :: s)) : False := by
  induction l with
  | nil =>
    obtain ⟨p, m, s, hp⟩ := h1
    cases p <;> simp at hp
  | cons a l' ih =>
    obtain ⟨ha, hnd'⟩ := List.nodup_cons.mp hnd
    obtain ⟨p1, m1, s1, e1⟩ := h1
    obtain ⟨p2, m2, s2, e2⟩ := h2
    cases p1 with
    | nil =>
      simp only [List.nil_append, List.cons.injEq] at e1
      obtain ⟨rfl, rfl⟩ := e1
      cases p2 with
      | nil =>
        simp only [List.nil_append, List.cons.injEq] at e2
        obtain ⟨rfl, h2'⟩ := e2
        exact ha (by rw [h2']; simp)
      | cons q qs =>
        simp only [List.cons_append, List.cons.injEq] at e2
        obtain ⟨rfl, h2'⟩ := e2
        exact ha (by rw [h2']; simp)
    | cons q qs =>
      simp only [List.cons_append, List.cons.injEq] at e1
      obtain ⟨rfl, h1'⟩ := e1
      cases p2 with
      | nil =>
        simp only [List.nil_append, List.cons.injEq] at e2
        obtain ⟨rfl, h2'⟩ := e2
        exact ha (by rw [h1']; simp)
      | cons r rs =>
        simp only [List.cons_append, List.cons.injEq] at e2
        obtain ⟨rfl, h2'⟩ := e2
        exact ih hnd' ⟨qs, m1, s1, h1'⟩ ⟨rs, m2, s2, h2'⟩

theorem filterMap_sublist_map {α β : Type} (F : α → Option β) (g : α → β)
    (l : List α) (h : ∀ a, F a = none ∨ F a = some (g a)) :
    (l.filterMap F).Sublist (l.map g) := by
  induction l with
  | nil => simp
  | cons a l' ih =>
    rw [List.filterMap_cons, List.map_cons]
    rcases h a with ha | ha
    · rw [ha]
      exact ih.cons (g a)
    · rw [ha]
      exact ih.cons₂ (g a)

theorem block_map_drone2 (d t : ℚ) (id1 : String) (p1 : Waypoint)
    (rest : List (String × Waypoint)) :
    ((rest.filterMap fun q =>
        if sqrtLt (p1.dist2 q.2) d then
          some (mkSpatialConflict d t id1 q.1 p1 q.2)
        else none).map Conflict.drone2_id) =
      rest.filterMap fun q =>
        if sqrtLt (p1.dist2 q.2) d then some q.1 else none := by
  rw [List.map_filterMap]
  congr 1
  funext q
  by_cases h : sqrtLt (p1.dist2 q.2) d = true
  · rw [if_pos h, if_pos h]
    rfl
  · rw [if_neg h, if_neg h]
    rfl

theorem conflictsAt_nodup (d t : ℚ) (ps : List (String × Waypoint))
    (hnd : (ps.map Prod.fst).Nodup) : (conflictsAt d t ps).Nodup := by
  induction ps with
  | nil => exact List.nodup_nil
  | cons e rest ih =>
    rw [conflictsAt_cons, List.nodup_append]
    rw [List.map_cons, List.nodup_cons] at hnd
    obtain ⟨h1, h2⟩ := hnd
    refine ⟨?_, ih h2, ?_⟩
    · refine List.Nodup.of_map Conflict.drone2_id ?_
      rw [block_map_drone2]
      refine List.Nodup.sublist ?_ h2
      exact filterMap_sublist_map _ Prod.fst rest (fun q => by
        by_cases h : sqrtLt (e.2.dist2 q.2) d = true
        · exact Or.inr (by rw [if_pos h])
        · exact Or.inl (by rw [if_neg h]))
    · intro c hc hc'
      have hc1 : c.drone1_id = e.1 := by
        rw [List.mem_filterMap] at hc
        obtain ⟨q, hq, hif⟩ := hc
        by_cases hP : sqrtLt (e.2.dist2 q.2) d = true
        · rw [if_pos hP] at hif
          rw [← Option.some_inj.mp hif]
          rfl
        · rw [if_neg hP] at hif
          cases hif
      have hc1' : c.drone1_id ∈ rest.map Prod.fst := by
        rw [mem_conflictsAt] at hc'
        obtain ⟨e1, e2, pre, mid, post, heq, -, hceq⟩ := hc'
        rw [hceq]
        show e1.1 ∈ _
        rw [heq]
        simp
      rw [hc1] at hc1'
      exact h1 hc1'

theorem timestamp_of_mem_conflictsAt (d t : ℚ)
    (ps : List (String × Waypoint)) (c : Conflict)
    (h : c ∈ conflictsAt d t ps) : c.timestamp = t := by
  rw [mem_conflictsAt] at h
  obtain ⟨e1, e2, pre, mid, post, -, -, rfl⟩ := h
  rfl

theorem linspace_nodup (a b : ℚ) (hab : a < b) (n : ℕ) :
    (linspace a b n).Nodup := by
  unfold linspace
  by_cases h0 : n = 0
  · simp [h0]
  · rw [if_neg h0]
    by_cases h1 : n = 1
    · rw [if_pos h1]
      exact List.nodup_singleton a
    · rw [if_neg h1]
      refine List.Nodup.map_on ?_ (List.nodup_range n)
      intro i hi j hj hfe
      have hn2 : 2 ≤ n := by omega
      have hm : (0 : ℚ) < (n : ℚ) - 1 := by
        have hc : (2 : ℚ) ≤ (n : ℚ) := by exact_mod_cast hn2
        linarith
      have hba : b - a ≠ 0 := sub_ne_zero.mpr (ne_of_gt hab)
      have h' : (b - a) * (i : ℚ) / ((n : ℚ) - 1) =
          (b - a) * (j : ℚ) / ((n : ℚ) - 1) := by linarith
      field_simp at h'
      rcases h' with h' | h'
      · exact h'
      · exact absurd h' hba

theorem flatMap_blocks_nodup (trajs : List DroneTrajectory) (d : ℚ)
    (ts : List ℚ) (hts : ts.Nodup)
    (hblocks : ∀ t ∈ ts, (conflictsAt d t (positionsAt trajs t)).Nodup) :
    (ts.flatMap fun t => conflictsAt d t (positionsAt trajs t)).Nodup := by
  induction ts with
  | nil => exact List.nodup_nil
  | cons t ts' ih =>
    rw [List.flatMap_cons, List.nodup_append]
    obtain ⟨htmem, hts'⟩ := List.nodup_cons.mp hts
    refine ⟨hblocks t (by simp), ih hts'
      (fun t' ht' => hblocks t' (List.mem_cons_of_mem _ ht')), ?_⟩
    intro c hc hc'
    rw [List.mem_flatMap] at hc'
    obtain ⟨t', ht', hct'⟩ := hc'
    have h1 := timestamp_of_mem_conflictsAt d t _ c hc
    have h2 := timestamp_of_mem_conflictsAt d t' _ c hct'
    exact htmem (by rw [← h1.symm.trans h2] at ht'; exact ht')

theorem positionsAt_keys_nodup (trajs : List DroneTrajectory) (t : ℚ)
    (hids : (trajs.map DroneTrajectory.drone_id).Nodup) :
    ((positionsAt trajs t).map Prod.fst).Nodup := by
  rw [positionsAt_eq trajs t hids, List.map_filterMap]
  refine List.Nodup.sublist
    (filterMap_sublist_map _ DroneTrajectory.drone_id trajs ?_) hids
  intro tr
  cases tr.interpolate_position t with
  | none => exact Or.inl rfl
  | some p => exact Or.inr rfl

theorem detect_spatial_nodup (trajs : List DroneTrajectory) (d res : ℚ)
    (hids : (trajs.map DroneTrajectory.drone_id).Nodup) :
    (detect_spatial_conflicts trajs d res).Nodup := by
  by_cases hlen : trajs.length < 2
  · unfold detect_spatial_conflicts
    rw [if_pos hlen]
    exact List.nodup_nil
  · by_cases hw : globalEnd trajs ≤ globalStart trajs
    · unfold detect_spatial_conflicts
      rw [if_neg hlen, if_pos hw]
      exact List.nodup_nil
    · rw [detect_spatial_eq_flatMap _ _ _ hlen hw]
      refine flatMap_blocks_nodup trajs d _ ?_ ?_
      · exact linspace_nodup _ _ (not_le.mp hw) _
      · intro t ht
        exact conflictsAt_nodup d t _ (positionsAt_keys_nodup trajs t hids)

/-- C1: with at least two valid trajectories with distinct IDs and a
positive time resolution, the spatial detector returns the empty list
when the common window is empty; otherwise a conflict is emitted exactly
for each sampled timestamp and each ordered pair of trajectories whose
interpolated positions lie at real Euclidean distance below
min_separation; every emitted conflict is of type spatial with severity
high below 0.3, medium below 0.6 and low otherwise relative to
min_separation; and per sampled timestamp and unordered drone pair the
conflict is unique, with no duplicate records overall. -/
theorem detect_spatial_spec (trajs : List DroneTrajectory) (d res : ℚ)
    (c c' : Conflict)
    (hvalid : ∀ tr ∈ trajs, tr.Valid)
    (hids : (trajs.map DroneTrajectory.drone_id).Nodup)
    (hres : 0 < res) :
    (globalEnd trajs ≤ globalStart trajs →
      detect_spatial_conflicts trajs d res = []) ∧
    (globalStart trajs < globalEnd trajs →
      (c ∈ detect_spatial_conflicts trajs d res ↔
        ∃ t ∈ timeSamples trajs res, ∃ tr1 tr2 pre mid post,
          trajs = pre ++ tr1 :: (mid ++ tr2 :: post) ∧
          ∃ p1 p2, tr1.interpolate_position t = some p1 ∧
            tr2.interpolate_position t = some p2 ∧
            SqrtLt (p1.dist2 p2) d ∧
            c = mkSpatialConflict d t tr1.drone_id tr2.drone_id p1 p2)) ∧
    (c ∈ detect_spatial_conflicts trajs d res →
      c.conflict_type = "spatial" ∧ SqrtLt c.dist2 d ∧
      (c.severity = "high" ↔ SqrtLt c.dist2 (3 / 10 * d)) ∧
      (c.severity = "medium" ↔
        ¬ SqrtLt c.dist2 (3 / 10 * d) ∧ SqrtLt c.dist2 (6 / 10 * d)) ∧
      (c.severity = "low" ↔ ¬ SqrtLt c.dist2 (6 / 10 * d))) ∧
    (c ∈ detect_spatial_conflicts trajs d res →
      c' ∈ detect_spatial_conflicts trajs d res →
      c.timestamp = c'.timestamp →
      ((c.drone1_id = c'.drone1_id ∧ c.drone2_id = c'.drone2_id) ∨
        (c.drone1_id = c'.drone2_id ∧ c.drone2_id = c'.drone1_id)) →
      c = c') ∧
    (detect_spatial_conflicts trajs d res).Nodup := by
  clear hvalid hres
  refine ⟨?_, ?_, ?_, ?_, detect_spatial_nodup trajs d res hids⟩
  · intro hw
    unfold detect_spatial_conflicts
    by_cases hlen : trajs.length < 2
    · rw [if_pos hlen]
    · rw [if_neg hlen, if_pos hw]
  · intro hgs
    rw [mem_detect_spatial trajs d res c hids]
    constructor
    · rintro ⟨-, -, t, ht, tr1, tr2, pre, mid, post, hsplit, p1, p2, hp1, hp2,
        hs, hc⟩
      exact ⟨t, ht, tr1, tr2, pre, mid, post, hsplit, p1, p2, hp1, hp2,
        (sqrtLt_iff_sqrt _ _).mp hs, hc⟩
    · rintro ⟨t, ht, tr1, tr2, pre, mid, post, hsplit, p1, p2, hp1, hp2, hs, hc⟩
      refine ⟨?_, hgs, t, ht, tr1, tr2, pre, mid, post, hsplit, p1, p2, hp1, hp2,
        (sqrtLt_iff_sqrt _ _).mpr hs, hc⟩
      rw [hsplit]
      simp only [List.length_append, List.length_cons]
      omega
  · intro hc
    obtain ⟨-, -, t, ht, tr1, tr2, pre, mid, post, hsplit, p1, p2, hp1, hp2,
      hs, rfl⟩ := (mem_detect_spatial trajs d res c hids).mp hc
    have hsev := spatialSeverity_spec (p1.dist2 p2) d hs
    exact ⟨rfl, (sqrtLt_iff_sqrt _ _).mp hs, hsev.1, hsev.2.1, hsev.2.2⟩
  · intro hc hc' hts hpair
    obtain ⟨-, -, t, ht, tr1, tr2, pre, mid, post, hsplit, p1, p2, hp1, hp2,
      hs, hceq⟩ := (mem_detect_spatial trajs d res c hids).mp hc
    obtain ⟨-, -, t', ht', tr1', tr2', pre', mid', post', hsplit', p1', p2',
      hp1', hp2', hs', hceq'⟩ := (mem_detect_spatial trajs d res c' hids).mp hc'
    have htt : t = t' := by
      rw [hceq, hceq'] at hts
      exact hts
    subst htt
    have inj := List.inj_on_of_nodup_map hids
    have htr1 : tr1 ∈ trajs := by rw [hsplit]; simp
    have htr2 : tr2 ∈ trajs := by rw [hsplit]; simp
    have htr1' : tr1' ∈ trajs := by rw [hsplit']; simp
    have htr2' : tr2' ∈ trajs := by rw [hsplit']; simp
    rcases hpair with ⟨hid1, hid2⟩ | ⟨hid1, hid2⟩
    · rw [hceq, hceq'] at hid1 hid2
      have e1 : tr1 = tr1' := inj htr1 htr1' hid1
      have e2 : tr2 = tr2' := inj htr2 htr2' hid2
      subst e1
      subst e2
      have ep1 : p1 = p1' := Option.some_inj.mp (hp1.symm.trans hp1')
      have ep2 : p2 = p2' := Option.some_inj.mp (hp2.symm.trans hp2')
      subst ep1
      subst ep2
      exact hceq.trans hceq'.symm
    · rw [hceq, hceq'] at hid1 hid2
      have e1 : tr1 = tr2' := inj htr1 htr2' hid1
      have e2 : tr2 = tr1' := inj htr2 htr1' hid2
      exfalso
      refine before_antisymm trajs (List.Nodup.of_map _ hids) tr1 tr2
        ⟨pre, mid, post, hsplit⟩ ⟨pre', mid', post', ?_⟩
      rw [← e1, ← e2] at hsplit'
      exact hsplit'

/-- Witness for C1 at the concrete crossing trajectories trA and trB
with min_separation 100 and time resolution 1. -/
theorem detect_spatial_spec_witness :
    (globalEnd [trA, trB] ≤ globalStart [trA, trB] →
      detect_spatial_conflicts [trA, trB] 100 1 = []) ∧
    (globalStart [trA, trB] < globalEnd [trA, trB] →
      (cLow ∈ detect_spatial_conflicts [trA, trB] 100 1 ↔
        ∃ t ∈ timeSamples [trA, trB] 1, ∃ tr1 tr2 pre mid post,
          [trA, trB] = pre ++ tr1 :: (mid ++ tr2 :: post) ∧
          ∃ p1 p2, tr1.interpolate_position t = some p1 ∧
            tr2.interpolate_position t = some p2 ∧
            SqrtLt (p1.dist2 p2) 100 ∧
            cLow = mkSpatialConflict 100 t tr1.drone_id tr2.drone_id p1 p2)) ∧
    (cLow ∈ detect_spatial_conflicts [trA, trB] 100 1 →
      cLow.conflict_type = "spatial" ∧ SqrtLt cLow.dist2 100 ∧
      (cLow.severity = "high" ↔ SqrtLt cLow.dist2 (3 / 10 * 100)) ∧
      (cLow.severity = "medium" ↔
        ¬ SqrtLt cLow.dist2 (3 / 10 * 100) ∧ SqrtLt cLow.dist2 (6 / 10 * 100)) ∧
      (cLow.severity = "low" ↔ ¬ SqrtLt cLow.dist2 (6 / 10 * 100))) ∧
    (cLow ∈ detect_spatial_conflicts [trA, trB] 100 1 →
      cLow ∈ detect_spatial_conflicts [trA, trB] 100 1 →
      cLow.timestamp = cLow.timestamp →
      ((cLow.drone1_id = cLow.drone1_id ∧ cLow.drone2_id = cLow.drone2_id) ∨
        (cLow.drone1_id = cLow.drone2_id ∧ cLow.drone2_id = cLow.drone1_id)) →
      cLow = cLow) ∧
    (detect_spatial_conflicts [trA, trB] 100 1).Nodup :=
  detect_spatial_spec [trA, trB] 100 1 cLow cLow (by decide) (by decide)
    (by decide)
